import Mathlib

/-!
Verification development for the News-Archive pipeline
(`src/News_Archive/main.py`): a shallow embedding of the data model and
of the functions `parse_rss`, `filter_news`, `save_new_to_db`,
`query_db_for_date` and `render_news_html`, followed by theorems about
the behaviour the specification describes.

Modelling conventions:
* Python `datetime.date` / `datetime.datetime` values become the
  records `PyDate` / `PyDateTime` below (naive calendar fields plus an
  optional UTC-offset in minutes).
* The standard-library functions `email.utils.parsedate_to_datetime`
  and `html.unescape` are not part of this repository; the embedding
  takes them as function parameters (`pd`, `unesc`) so that every
  theorem holds for an arbitrary implementation of them.
* `datetime.datetime.fromisoformat` is modelled concretely by
  `fromisoformat` below, covering the extended ISO-8601 grammar that
  `datetime.isoformat` emits (the only strings this pipeline feeds it).
* The sqlite table becomes a list of `StoredNewsRecord` plus the next
  auto-increment id; the UNIQUE constraint on `link` becomes the
  membership test in `insertIfAbsent` (equivalent under the single
  writer this program is).
-/

/-- A Python `datetime.date`: naive calendar fields. -/
structure PyDate where
  year : Nat
  month : Nat
  day : Nat
deriving DecidableEq

/-- A Python `datetime.datetime`: naive calendar/clock fields plus an
optional timezone offset in minutes (`tzmin`). -/
structure PyDateTime where
  year : Nat
  month : Nat
  day : Nat
  hour : Nat
  minute : Nat
  second : Nat
  microsecond : Nat
  tzmin : Option Int
deriving DecidableEq

/-- `datetime.date()` projection of a `datetime.datetime` value. -/
def PyDateTime.date (dt : PyDateTime) : PyDate :=
  ⟨dt.year, dt.month, dt.day⟩

/-- Zero-pad a natural number to width `w`, as Python `f"{n:0wd}"`. -/
def padNum (w n : Nat) : String :=
  let s := toString n
  ⟨List.replicate (w - s.length) (Char.ofNat 48) ++ s.data⟩

/-- `datetime.date.isoformat`: `YYYY-MM-DD`. -/
def PyDate.isoformat (d : PyDate) : String :=
  padNum 4 d.year ++ "-" ++ padNum 2 d.month ++ "-" ++ padNum 2 d.day

/-- The `±HH:MM` suffix `datetime.isoformat` appends for an aware value. -/
def tzSuffix : Option Int → String
  | none => ""
  | some m =>
    (if m < 0 then "-" else "+") ++
      padNum 2 (m.natAbs / 60) ++ ":" ++ padNum 2 (m.natAbs % 60)

/-- `datetime.datetime.isoformat`:
`YYYY-MM-DDTHH:MM:SS[.ffffff][±HH:MM]`. -/
def PyDateTime.isoformat (dt : PyDateTime) : String :=
  padNum 4 dt.year ++ "-" ++ padNum 2 dt.month ++ "-" ++ padNum 2 dt.day ++
    "T" ++ padNum 2 dt.hour ++ ":" ++ padNum 2 dt.minute ++ ":" ++
    padNum 2 dt.second ++
    (if dt.microsecond = 0 then "" else "." ++ padNum 6 dt.microsecond) ++
    tzSuffix dt.tzmin

/-- `strftime("%Y-%m-%d %H:%M")`. -/
def strftimeShort (dt : PyDateTime) : String :=
  padNum 4 dt.year ++ "-" ++ padNum 2 dt.month ++ "-" ++ padNum 2 dt.day ++
    " " ++ padNum 2 dt.hour ++ ":" ++ padNum 2 dt.minute

/-- An `xml.etree.ElementTree.Element`: tag, optional text, children.
(`ElementTree` resolves a namespace prefix `ns:item` to a tag of the
form `\x7buri\x7ditem`, so the tag string carries the namespace.) -/
inductive Element where
  | mk (tag : String) (text : Option String) (children : List Element)

/-- The `.tag` attribute. -/
def Element.tag : Element → String
  | .mk t _ _ => t

/-- The `.text` attribute. -/
def Element.text : Element → Option String
  | .mk _ x _ => x

/-- Iteration over the direct children (`for child in item`). -/
def Element.children : Element → List Element
  | .mk _ _ c => c

mutual
/-- `Element.iter()`: the element itself followed by all descendants,
in document order. -/
def Element.iter : Element → List Element
  | .mk t x cs => .mk t x cs :: iterList cs

/-- `iter` mapped over a list of elements, concatenated. -/
def iterList : List Element → List Element
  | [] => []
  | c :: cs => Element.iter c ++ iterList cs
end

/-- `d` occurs in the tree rooted at `e` (as `e` itself or nested at any
depth below it). -/
inductive Subelem : Element → Element → Prop where
  | refl (e : Element) : Subelem e e
  | step {e c d : Element} : c ∈ e.children → Subelem d c → Subelem d e

/-- Python `str.lower()` (ASCII case folding suffices for the tags and
field names this program compares). -/
def lowerStr (s : String) : String :=
  ⟨s.data.map Char.toLower⟩

/-- `_tag_endswith(tag, name)`: `tag.lower().endswith(name.lower())`. -/
def _tag_endswith (tag name : String) : Bool :=
  (lowerStr name).data.isSuffixOf (lowerStr tag).data

/-- `get_child_text(item, name)`: the text of the first direct child
whose tag suffix-matches `name`, or `""`. -/
def get_child_text (item : Element) (name : String) : String :=
  match item.children.find? (fun child => _tag_endswith child.tag name) with
  | some child => child.text.getD ""
  | none => ""

/-- A `FeedItem` dict as built by `parse_rss`. -/
structure FeedItem where
  title : String
  link : String
  category : String
  pubdate_raw : String
  pubdate_iso : Option String
  pubdate_dt : Option PyDateTime
deriving DecidableEq

/-- Python `str.strip()`: drop leading and trailing whitespace. -/
def stripStr (s : String) : String :=
  ⟨((s.data.dropWhile Char.isWhitespace).reverse.dropWhile
      Char.isWhitespace).reverse⟩

/-- The loop body of `parse_rss` for one `<item>` element.  `pd` models
`email.utils.parsedate_to_datetime` (raising = `none`), `unesc` models
`html.unescape`. -/
def parseItemElem (pd : String → Option PyDateTime)
    (unesc : String → String) (item : Element) : FeedItem :=
  let title := stripStr (get_child_text item "title")
  let link := stripStr (get_child_text item "link")
  let category := stripStr (get_child_text item "category")
  let pubdate_raw := stripStr (get_child_text item "pubdate")
  let parsed : Option PyDateTime :=
    if pubdate_raw ≠ "" then pd pubdate_raw else none
  { title := unesc title
    link := link
    category := category
    pubdate_raw := pubdate_raw
    pubdate_iso := parsed.map PyDateTime.isoformat
    pubdate_dt := parsed }

/-- The elements `parse_rss` treats as feed items: every element of
`root.iter()` whose tag suffix-matches `"item"`. -/
def itemElements (root : Element) : List Element :=
  root.iter.filter (fun e => _tag_endswith e.tag "item")

/-- `parse_rss` (on an already-parsed XML tree): one `FeedItem` per
recognised item element, in document order. -/
def parse_rss (pd : String → Option PyDateTime)
    (unesc : String → String) (root : Element) : List FeedItem :=
  (itemElements root).map (parseItemElem pd unesc)

/-- The local part of a tag name as the specification words it: what
remains after any namespace prefix ending in `\x7d` (ElementTree) or
`:` (raw XML) is ignored. -/
def localName (tag : String) : String :=
  ⟨tag.data.foldl
    (fun acc c => if c = Char.ofNat 125 ∨ c = Char.ofNat 58 then [] else acc ++ [c]) []⟩

/-- The extraction predicate as the specification words it: the tag's
local name case-insensitively equals `"item"`. -/
def specIsItem (tag : String) : Bool :=
  lowerStr (localName tag) = "item"

/-- The date check inside `filter_news`: Python only compares when
`date_filter` is truthy AND the item's `pubdate_dt` is truthy. -/
def dateOk (date_filter : Option PyDate) (dt : Option PyDateTime) : Bool :=
  match date_filter, dt with
  | some d, some v => v.date = d
  | _, _ => true

/-- The category check inside `filter_news`: Python only compares when
`categories` is a truthy (non-empty) list AND the item's `category` is
a truthy (non-empty) string. -/
def catOk (categories : Option (List String)) (c : String) : Bool :=
  match categories with
  | none => true
  | some cs => if cs.isEmpty then true else if c = "" then true else cs.contains c

/-- `filter_news(items, date_filter, categories)`. -/
def filter_news (items : List FeedItem) (date_filter : Option PyDate)
    (categories : Option (List String)) : List FeedItem :=
  items.filter (fun it => dateOk date_filter it.pubdate_dt && catOk categories it.category)

/-- One row of the sqlite `news` table. -/
structure StoredNewsRecord where
  id : Nat
  link : String
  title : String
  category : String
  pubdate_iso : Option String
  pubdate_raw : String
  saved_at : String
deriving DecidableEq

/-- The sqlite database: the `news` rows in insertion order plus the
next AUTOINCREMENT id. -/
structure DB where
  records : List StoredNewsRecord
  nextId : Nat
deriving DecidableEq

/-- The row the INSERT in `save_new_to_db` builds from a feed item. -/
def mkRecord (i : Nat) (it : FeedItem) (now : String) : StoredNewsRecord :=
  ⟨i, it.link, it.title, it.category, it.pubdate_iso, it.pubdate_raw, now⟩

/-- Whether some stored row already has this link (what the UNIQUE
constraint on `link` detects). -/
def linkExists (db : DB) (l : String) : Bool :=
  db.records.any (fun r => r.link == l)

/-- One INSERT attempt: on a duplicate `link` the UNIQUE constraint
fires (`sqlite3.IntegrityError`), the row is skipped and the store is
unchanged; otherwise the row is appended.  `now` models
`datetime.datetime.now().isoformat(timespec='seconds')`. -/
def insertIfAbsent (db : DB) (it : FeedItem) (now : String) : DB × Bool :=
  if linkExists db it.link then (db, false)
  else (⟨db.records ++ [mkRecord db.nextId it now], db.nextId + 1⟩, true)

/-- `save_new_to_db(items)`: insert each item, collecting those
actually inserted, skipping duplicate links. -/
def save_new_to_db (db : DB) (items : List FeedItem) (now : String) :
    DB × List FeedItem :=
  match items with
  | [] => (db, [])
  | it :: rest =>
    let p := insertIfAbsent db it now
    let q := save_new_to_db p.1 rest now
    (q.1, if p.2 then it :: q.2 else q.2)

/-- A row as returned by `query_db_for_date` (the SELECTed columns). -/
structure NewsRow where
  title : String
  link : String
  category : String
  pubdate_iso : Option String
  pubdate_raw : String
deriving DecidableEq

/-- Projection of a stored row onto the SELECTed columns. -/
def toRow (r : StoredNewsRecord) : NewsRow :=
  ⟨r.title, r.link, r.category, r.pubdate_iso, r.pubdate_raw⟩

/-- Python truthiness helper: an `Option String` seen as the string it
holds, `none` as `""`. -/
def optStr : Option String → String
  | none => ""
  | some s => s

/-- The WHERE clause `pubdate_iso LIKE 'YYYY-MM-DD%'`: a NULL
`pubdate_iso` never matches; the pattern has no wildcard or letter, so
LIKE is a plain prefix test. -/
def likeDate (d : PyDate) (iso : Option String) : Bool :=
  match iso with
  | none => false
  | some s => (PyDate.isoformat d).data.isPrefixOf s.data

/-- Insert a row into a list sorted descending by `pubdate_iso`. -/
def insertDesc (x : NewsRow) : List NewsRow → List NewsRow
  | [] => [x]
  | y :: ys =>
    if optStr y.pubdate_iso < optStr x.pubdate_iso then x :: y :: ys
    else y :: insertDesc x ys

/-- `ORDER BY pubdate_iso DESC` (sqlite BINARY collation on these
ASCII strings coincides with the character order used here). -/
def sortDesc : List NewsRow → List NewsRow
  | [] => []
  | x :: xs => insertDesc x (sortDesc xs)

/-- `query_db_for_date(date_obj)`. -/
def query_db_for_date (db : DB) (date_obj : PyDate) : List NewsRow :=
  sortDesc ((db.records.filter (fun r => likeDate date_obj r.pubdate_iso)).map toRow)

/-- Read exactly `n` decimal digits, accumulating their value. -/
def readNDigits : Nat → Nat → List Char → Option (Nat × List Char)
  | 0, acc, cs => some (acc, cs)
  | _ + 1, _, [] => none
  | n + 1, acc, c :: cs =>
    if c.isDigit then readNDigits n (acc * 10 + (c.toNat - 48)) cs else none

/-- Consume one expected character. -/
def expectChar (ch : Char) : List Char → Option (List Char)
  | [] => none
  | c :: cs => if c = ch then some cs else none

/-- Read `.ffffff`-style fractional digits (1 to 6 of them) as
microseconds. -/
def readFraction (cs : List Char) : Option (Nat × List Char) :=
  let digits := cs.takeWhile Char.isDigit
  let rest := cs.drop digits.length
  if digits.length = 0 ∨ 6 < digits.length then none
  else
    some (digits.foldl (fun acc c => acc * 10 + (c.toNat - 48)) 0 *
      10 ^ (6 - digits.length), rest)

/-- Parse the optional `±HH:MM` timezone suffix (must end the input). -/
def readOffset (cs : List Char) : Option (Option Int) :=
  match cs with
  | [] => some none
  | c :: cs =>
    if c = Char.ofNat 43 ∨ c = Char.ofNat 45 then
      match readNDigits 2 0 cs with
      | none => none
      | some (oh, cs) =>
        match expectChar (Char.ofNat 58) cs with
        | none => none
        | some cs =>
          match readNDigits 2 0 cs with
          | none => none
          | some (om, cs) =>
            if cs = [] ∧ oh ≤ 23 ∧ om ≤ 59 then
              some (some (if c = Char.ofNat 45 then -((oh * 60 + om : Nat) : Int)
                else ((oh * 60 + om : Nat) : Int)))
            else none
    else none

/-- Parse the `HH:MM[:SS[.ffffff]][±HH:MM]` tail of an ISO string. -/
def readTime (y mo d : Nat) (cs : List Char) : Option PyDateTime :=
  match readNDigits 2 0 cs with
  | none => none
  | some (h, cs) =>
    match expectChar (Char.ofNat 58) cs with
    | none => none
    | some cs =>
      match readNDigits 2 0 cs with
      | none => none
      | some (mi, cs) =>
        let secPart : Option (Nat × Nat × List Char) :=
          match expectChar (Char.ofNat 58) cs with
          | none => some (0, 0, cs)
          | some cs2 =>
            match readNDigits 2 0 cs2 with
            | none => none
            | some (s, cs3) =>
              match expectChar (Char.ofNat 46) cs3 with
              | none => some (s, 0, cs3)
              | some cs4 =>
                match readFraction cs4 with
                | none => none
                | some (us, cs5) => some (s, us, cs5)
        match secPart with
        | none => none
        | some (s, us, cs) =>
          match readOffset cs with
          | none => none
          | some tz =>
            if h ≤ 23 ∧ mi ≤ 59 ∧ s ≤ 59 then
              some ⟨y, mo, d, h, mi, s, us, tz⟩
            else none

/-- `datetime.datetime.fromisoformat`, modelled over the extended
ISO-8601 grammar that `datetime.isoformat` produces:
`YYYY-MM-DD[<sep>HH:MM[:SS[.ffffff]][±HH:MM]]` (any single separator
character, as Python allows).  Day-of-month is validated against 1–31
rather than the month's true length; none of the strings considered
here exercises that difference. -/
def fromisoformat (s : String) : Option PyDateTime :=
  match readNDigits 4 0 s.data with
  | none => none
  | some (y, cs) =>
    match expectChar (Char.ofNat 45) cs with
    | none => none
    | some cs =>
      match readNDigits 2 0 cs with
      | none => none
      | some (mo, cs) =>
        match expectChar (Char.ofNat 45) cs with
        | none => none
        | some cs =>
          match readNDigits 2 0 cs with
          | none => none
          | some (d, cs) =>
            if 1 ≤ mo ∧ mo ≤ 12 ∧ 1 ≤ d ∧ d ≤ 31 then
              match cs with
              | [] => some ⟨y, mo, d, 0, 0, 0, 0, none⟩
              | _ :: cs2 => readTime y mo d cs2
            else none

/-- The per-record display timestamp computed inside the
`render_news_html` loop: `pub = iso or raw or ""`, then, when `iso` is
truthy, `fromisoformat` + `strftime("%Y-%m-%d %H:%M")` with the
exception swallowed. -/
def display_pub (iso : Option String) (raw : String) : String :=
  let pub := if optStr iso ≠ "" then optStr iso
    else if raw ≠ "" then raw else ""
  if optStr iso ≠ "" then
    match fromisoformat (optStr iso) with
    | some dt => strftimeShort dt
    | none => pub
  else pub

/-- `html.escape(s)` (with its default `quote=True`): the five
character entities, applied characterwise. -/
def escChar (c : Char) : String :=
  if c = Char.ofNat 38 then "&amp;"
  else if c = Char.ofNat 60 then "&lt;"
  else if c = Char.ofNat 62 then "&gt;"
  else if c = Char.ofNat 34 then "&quot;"
  else if c = Char.ofNat 39 then "&#x27;"
  else ⟨[c]⟩

/-- `html.escape` over a character list. -/
def escList : List Char → List Char
  | [] => []
  | c :: cs => (escChar c).data ++ escList cs

/-- `html.escape(s)`. -/
def html_escape (s : String) : String :=
  ⟨escList s.data⟩

/-- The literal article block with the four already-computed pieces
substituted where the f-string in `render_news_html` places them. -/
def articleBlock (link_esc title_esc cat pub : String) : String :=
  "\n        <article class=\"news-item\">\n            <h2><a href=\"" ++
    link_esc ++ "\" target=\"_blank\" rel=\"noopener noreferrer\">" ++
    title_esc ++ "</a></h2>\n            <p class=\"news-meta\">" ++
    cat ++ " | " ++ pub ++ "</p>\n        </article>\n        "

/-- The loop body of `render_news_html` for one row. -/
def renderBlock (it : NewsRow) : String :=
  let pub := display_pub it.pubdate_iso it.pubdate_raw
  let title_esc := html_escape it.title
  let link_esc := html_escape it.link
  let cat := html_escape it.category
  articleBlock link_esc title_esc cat pub

/-- `render_news_html(date_obj, items)`; the template text (a file
read in the source) and `datetime.now()` are passed in as `tpl` and
`now`. -/
def render_news_html (tpl : String) (date_obj : PyDate)
    (items : List NewsRow) (now : String) : String :=
  let news_blocks := items.map renderBlock
  let body := if news_blocks.isEmpty then "<p>Нічого не знайдено.</p>"
    else String.intercalate "\n" news_blocks
  let rendered := tpl.replace "\x7b\x7bdate\x7d\x7d" date_obj.isoformat
  let rendered := rendered.replace "\x7b\x7bnews_list\x7d\x7d" body
  rendered.replace "\x7b\x7bgenerated_at\x7d\x7d" now

/-- One run of `main`'s data path: parse the feed tree, filter to
`today`, save the new items, and re-query the store for `today`.
Returns the resulting store, the newly added items, and the rows the
page is rendered from. -/
def run_pipeline (pd : String → Option PyDateTime) (unesc : String → String)
    (db : DB) (root : Element) (today : PyDate) (now : String) :
    DB × List FeedItem × List NewsRow :=
  let items := parse_rss pd unesc root
  let todays := filter_news items (some today) none
  let p := save_new_to_db db todays now
  (p.1, p.2, query_db_for_date p.1 today)

/-- Some stored row carries this link. -/
def linkPresent (db : DB) (l : String) : Prop :=
  ∃ r ∈ db.records, r.link = l

/-- The store invariant the UNIQUE constraint maintains: all stored
links are pairwise distinct. -/
def linksNodup (db : DB) : Prop :=
  (db.records.map (fun r => r.link)).Nodup

instance : DecidablePred (linksNodup ·) := by
  intro db; unfold linksNodup; infer_instance

/-- The store after a successful insert. -/
def insDB (db : DB) (it : FeedItem) (now : String) : DB :=
  ⟨db.records ++ [mkRecord db.nextId it now], db.nextId + 1⟩

theorem linkExists_iff {db : DB} {l : String} :
    linkExists db l = true ↔ linkPresent db l := by
  simp [linkExists, linkPresent, List.any_eq_true, beq_iff_eq]

theorem save_nil (db : DB) (now : String) :
    save_new_to_db db [] now = (db, []) := rfl

theorem save_cons_dup {db : DB} {it : FeedItem} (rest : List FeedItem)
    (now : String) (h : linkExists db it.link = true) :
    save_new_to_db db (it :: rest) now = save_new_to_db db rest now := by
  simp [save_new_to_db, insertIfAbsent, h]

theorem save_cons_new {db : DB} {it : FeedItem} (rest : List FeedItem)
    (now : String) (h : linkExists db it.link = false) :
    save_new_to_db db (it :: rest) now =
      ((save_new_to_db (insDB db it now) rest now).1,
        it :: (save_new_to_db (insDB db it now) rest now).2) := by
  simp [save_new_to_db, insertIfAbsent, insDB, h]

theorem save_records_mono {db : DB} {items : List FeedItem} {now : String}
    {r : StoredNewsRecord} (h : r ∈ db.records) :
    r ∈ (save_new_to_db db items now).1.records := by
  induction items generalizing db with
  | nil => simpa [save_nil] using h
  | cons it rest ih =>
    cases hx : linkExists db it.link with
    | true => rw [save_cons_dup rest now hx]; exact ih h
    | false =>
      rw [save_cons_new rest now hx]
      exact ih (by simp [insDB, h])

theorem save_linkPresent_mono {db : DB} {items : List FeedItem}
    {now : String} {l : String} (h : linkPresent db l) :
    linkPresent (save_new_to_db db items now).1 l := by
  obtain ⟨r, hr, hl⟩ := h
  exact ⟨r, save_records_mono hr, hl⟩

theorem save_all_present {items : List FeedItem} {now : String} :
    ∀ {db : DB} {it : FeedItem}, it ∈ items →
      linkPresent (save_new_to_db db items now).1 it.link := by
  induction items with
  | nil => intro db it h; cases h
  | cons hd rest ih =>
    intro db it h
    cases hx : linkExists db hd.link with
    | true =>
      rw [save_cons_dup rest now hx]
      rcases List.mem_cons.mp h with h | h
      · subst h; exact save_linkPresent_mono (linkExists_iff.mp hx)
      · exact ih h
    | false =>
      rw [save_cons_new rest now hx]
      rcases List.mem_cons.mp h with h | h
      · subst h
        exact save_linkPresent_mono
          ⟨mkRecord db.nextId it now, by simp [insDB], rfl⟩
      · exact ih h

theorem save_noop {db : DB} {items : List FeedItem} {now : String}
    (h : ∀ it ∈ items, linkPresent db it.link) :
    save_new_to_db db items now = (db, []) := by
  induction items with
  | nil => exact save_nil db now
  | cons it rest ih =>
    have hx : linkExists db it.link = true :=
      linkExists_iff.mpr (h it (by simp))
    rw [save_cons_dup rest now hx]
    exact ih (fun x hxm => h x (by simp [hxm]))

theorem save_nodup {db : DB} {items : List FeedItem} {now : String}
    (h : linksNodup db) : linksNodup (save_new_to_db db items now).1 := by
  induction items generalizing db with
  | nil => simpa [save_nil] using h
  | cons it rest ih =>
    cases hx : linkExists db it.link with
    | true => rw [save_cons_dup rest now hx]; exact ih h
    | false =>
      rw [save_cons_new rest now hx]
      refine ih ?_
      have hnot : ¬ linkPresent db it.link := fun hp => by
        rw [linkExists_iff.mpr hp] at hx; cases hx
      unfold linksNodup at h ⊢
      simp only [insDB, List.map_append, List.map_cons, List.map_nil,
        mkRecord]
      rw [List.nodup_append]
      refine ⟨h, by simp, ?_⟩
      intro a ha hb
      simp only [List.mem_singleton] at hb
      simp only [List.mem_map] at ha
      obtain ⟨r, hr, hrl⟩ := ha
      exact hnot ⟨r, hr, by rw [hrl, hb]⟩

theorem save_skip {db : DB} {items : List FeedItem} {now : String}
    {it : FeedItem} (h : linkPresent db it.link) :
    it ∉ (save_new_to_db db items now).2 := by
  induction items generalizing db with
  | nil => simp [save_nil]
  | cons hd rest ih =>
    cases hx : linkExists db hd.link with
    | true => rw [save_cons_dup rest now hx]; exact ih h
    | false =>
      rw [save_cons_new rest now hx]
      intro hmem
      rcases List.mem_cons.mp hmem with heq | hmem2
      · subst heq
        rw [linkExists_iff.mpr h] at hx; cases hx
      · exact ih (by
          obtain ⟨r, hr, hl⟩ := h
          exact ⟨r, by simp [insDB, hr], hl⟩) hmem2

theorem mem_insertDesc {x a : NewsRow} {l : List NewsRow} :
    a ∈ insertDesc x l ↔ a = x ∨ a ∈ l := by
  induction l with
  | nil => simp [insertDesc]
  | cons y ys ih =>
    by_cases hc : optStr y.pubdate_iso < optStr x.pubdate_iso
    · simp [insertDesc, hc]
    · simp [insertDesc, hc, ih]
      tauto

theorem mem_sortDesc {a : NewsRow} {l : List NewsRow} :
    a ∈ sortDesc l ↔ a ∈ l := by
  induction l with
  | nil => simp [sortDesc]
  | cons y ys ih => simp [sortDesc, mem_insertDesc, ih]

/-- The descending order `ORDER BY pubdate_iso DESC` establishes. -/
def rowGE (a b : NewsRow) : Prop :=
  optStr b.pubdate_iso ≤ optStr a.pubdate_iso

theorem pairwise_insertDesc {x : NewsRow} {l : List NewsRow}
    (h : l.Pairwise rowGE) : (insertDesc x l).Pairwise rowGE := by
  induction l with
  | nil => simp [insertDesc, List.Pairwise.nil]
  | cons y ys ih =>
    rcases List.pairwise_cons.mp h with ⟨hy, hys⟩
    by_cases hc : optStr y.pubdate_iso < optStr x.pubdate_iso
    · rw [insertDesc, if_pos hc]
      refine List.pairwise_cons.mpr ⟨?_, h⟩
      intro b hb
      rcases List.mem_cons.mp hb with hb | hb
      · subst hb; exact le_of_lt hc
      · exact le_trans (hy b hb) (le_of_lt hc)
    · rw [insertDesc, if_neg hc]
      refine List.pairwise_cons.mpr ⟨?_, ih hys⟩
      intro b hb
      rcases mem_insertDesc.mp hb with hb | hb
      · subst hb; exact le_of_not_lt hc
      · exact hy b hb

theorem pairwise_sortDesc (l : List NewsRow) :
    (sortDesc l).Pairwise rowGE := by
  induction l with
  | nil => simp [sortDesc, List.Pairwise.nil]
  | cons y ys ih => exact pairwise_insertDesc ih

theorem perm_insertDesc (x : NewsRow) (l : List NewsRow) :
    List.Perm (insertDesc x l) (x :: l) := by
  induction l with
  | nil => rw [insertDesc]
  | cons y ys ih =>
    by_cases hc : optStr y.pubdate_iso < optStr x.pubdate_iso
    · rw [insertDesc, if_pos hc]
    · rw [insertDesc, if_neg hc]
      exact List.Perm.trans (List.Perm.cons y ih) (List.Perm.swap x y ys)

theorem perm_sortDesc (l : List NewsRow) :
    List.Perm (sortDesc l) l := by
  induction l with
  | nil => rw [sortDesc]
  | cons y ys ih =>
    exact List.Perm.trans (perm_insertDesc y (sortDesc ys)) (List.Perm.cons y ih)

theorem isPrefixOf_iff_take (p : List Char) :
    ∀ s : List Char, p.isPrefixOf s = true ↔ s.take p.length = p := by
  induction p with
  | nil => intro s; simp [List.isPrefixOf]
  | cons a as ih =>
    intro s
    cases s with
    | nil => simp [List.isPrefixOf]
    | cons b bs =>
      simp only [List.isPrefixOf, List.length_cons, List.take_succ_cons,
        Bool.and_eq_true, beq_iff_eq, List.cons.injEq, ih bs]
      tauto

theorem mem_iterList {e : Element} {cs : List Element} :
    e ∈ iterList cs ↔ ∃ c ∈ cs, e ∈ c.iter := by
  induction cs with
  | nil => simp [iterList]
  | cons c cs ih => simp [iterList, ih]

theorem self_mem_iter (e : Element) : e ∈ e.iter := by
  cases e with
  | mk t x cs => rw [Element.iter]; exact List.mem_cons_self _ _

theorem mem_iter_of_subelem {e root : Element} (h : Subelem e root) :
    e ∈ root.iter := by
  induction h with
  | refl e => exact self_mem_iter e
  | step hc _ ih =>
    rename_i par c d hsub
    cases par with
    | mk t x cs =>
      rw [Element.iter]
      exact List.mem_cons_of_mem _
        (mem_iterList.mpr ⟨c, by simpa [Element.children] using hc, ih⟩)

theorem subelem_of_mem_iter :
    ∀ n (root : Element), sizeOf root ≤ n →
      ∀ {e : Element}, e ∈ root.iter → Subelem e root := by
  intro n
  induction n with
  | zero =>
    intro root hle
    cases root with
    | mk t x cs => simp at hle
  | succ n ih =>
    intro root hle e he
    cases root with
    | mk t x cs =>
      rw [Element.iter] at he
      rcases List.mem_cons.mp he with he | he
      · subst he; exact Subelem.refl _
      · obtain ⟨c, hc, hec⟩ := mem_iterList.mp he
        have hsz : sizeOf c ≤ n := by
          have h1 : sizeOf c < sizeOf cs := List.sizeOf_lt_of_mem hc
          have h2 : sizeOf (Element.mk t x cs) = 1 + sizeOf t + sizeOf x + sizeOf cs := by
            simp
          omega
        exact Subelem.step (by simpa [Element.children] using hc) (ih c hsz hec)

theorem mem_iter_iff {e root : Element} :
    e ∈ root.iter ↔ Subelem e root :=
  ⟨fun h => subelem_of_mem_iter (sizeOf root) root le_rfl h, mem_iter_of_subelem⟩

theorem not_lt_mem_escChar (c : Char) :
    Char.ofNat 60 ∉ (escChar c).data := by
  unfold escChar
  split_ifs with h1 h2 h3 h4 h5
  · decide
  · decide
  · decide
  · decide
  · decide
  · intro hm
    simp only [List.mem_singleton] at hm
    exact h2 hm.symm

theorem not_lt_mem_escList (l : List Char) :
    Char.ofNat 60 ∉ escList l := by
  induction l with
  | nil => simp [escList]
  | cons c cs ih =>
    simp only [escList, List.mem_append]
    rintro (h | h)
    · exact not_lt_mem_escChar c h
    · exact ih h

theorem save_added_sub {db : DB} {items : List FeedItem} {now : String}
    {it : FeedItem} (h : it ∈ (save_new_to_db db items now).2) :
    it ∈ items := by
  induction items generalizing db with
  | nil => simp [save_nil] at h
  | cons hd rest ih =>
    cases hx : linkExists db hd.link with
    | true =>
      rw [save_cons_dup rest now hx] at h
      exact List.mem_cons_of_mem hd (ih h)
    | false =>
      rw [save_cons_new rest now hx] at h
      rcases List.mem_cons.mp h with heq | hmem
      · simp [heq]
      · exact List.mem_cons_of_mem hd (ih hmem)

/-- An item whose publish date failed to parse: both date fields absent. -/
def itemUndated : FeedItem :=
  ⟨"Undated", "http://example.org/1", "News", "not a date", none, none⟩

/-- An item with an empty `category` field. -/
def itemNoCat : FeedItem :=
  ⟨"NoCat", "http://example.org/2", "", "", none, none⟩

/-- A sample feed item for store witnesses. -/
def itemA : FeedItem :=
  ⟨"A", "http://example.org/a", "News",
    "Thu, 14 Mar 2024 10:05:00 +0200",
    some "2024-03-14T10:05:00+02:00", some ⟨2024, 3, 14, 10, 5, 0, 0, some 120⟩⟩

/-- C1 as stated is false on the code: with a date filter active,
`filter_news` keeps an item whose `pubdate_dt` is absent (the `if
date_filter and it.get("pubdate_dt")` guard skips the comparison), so
the item appears although it has no parsed publish date whose calendar
date equals the filter date. -/
theorem c1_counterexample :
    itemUndated ∈ filter_news [itemUndated] (some ⟨2024, 3, 14⟩) none ∧
      itemUndated.pubdate_dt = none := by
  decide

/-- C1 (amended): with `dateFilter = D` active, an item appears in the
output iff it is in the input and, in case it has a `pubdate_dt`
value, that value's calendar date equals `D`; items lacking a parsed
date are passed through, never excluded. -/
theorem c1_date_filter (items : List FeedItem) (D : PyDate) (it : FeedItem) :
    it ∈ filter_news items (some D) none ↔
      it ∈ items ∧ ∀ dt, it.pubdate_dt = some dt → dt.date = D := by
  rw [filter_news, List.mem_filter]
  refine and_congr_right fun _ => ?_
  cases hdt : it.pubdate_dt with
  | none => simp [dateOk, catOk, hdt]
  | some v => simp [dateOk, catOk, hdt]

/-- C2 as stated is false on the code: with a category filter active,
`filter_news` keeps an item whose `category` is the empty string (the
`if categories and it.get("category")` guard skips the membership
test), so an item appears whose category is neither non-empty nor a
member of the filter set. -/
theorem c2_counterexample :
    itemNoCat ∈ filter_news [itemNoCat] none (some ["Politics"]) ∧
      itemNoCat.category = "" := by
  decide

/-- C2 (amended): with a non-empty category set `C` active, an item
appears in the output iff it is in the input and, in case its
`category` is non-empty, that category is a member of `C`;
empty-category items are passed through, never excluded. -/
theorem c2_category_filter (items : List FeedItem) (C : List String)
    (it : FeedItem) (hC : C ≠ []) :
    it ∈ filter_news items none (some C) ↔
      it ∈ items ∧ (it.category ≠ "" → it.category ∈ C) := by
  rw [filter_news, List.mem_filter]
  refine and_congr_right fun _ => ?_
  have hCe : C.isEmpty = false := by
    cases C with
    | nil => cases hC rfl
    | cons a as => rfl
  by_cases hc : it.category = ""
  · simp [dateOk, catOk, hCe, hc]
  · simp [dateOk, catOk, hCe, hc]

theorem c2_witness :
    (["Politics"] : List String) ≠ [] ∧
      (itemA ∈ filter_news [itemA] none (some ["Politics"]) ↔
        itemA ∈ [itemA] ∧ (itemA.category ≠ "" → itemA.category ∈ ["Politics"])) :=
  ⟨by decide, c2_category_filter [itemA] ["Politics"] itemA (by decide)⟩

/-- C3: starting from a store whose links are pairwise distinct,
`save_new_to_db` preserves that invariant (so at most one record per
link ever exists), never touches an existing record, and an item whose
link is already stored is skipped and not counted among the returned
newly-added items. -/
theorem c3_link_unique (db : DB) (items : List FeedItem) (now : String)
    (h : linksNodup db) :
    linksNodup (save_new_to_db db items now).1 ∧
    (∀ r1 ∈ (save_new_to_db db items now).1.records,
      ∀ r2 ∈ (save_new_to_db db items now).1.records,
        r1.link = r2.link → r1 = r2) ∧
    (∀ r ∈ db.records, r ∈ (save_new_to_db db items now).1.records) ∧
    (∀ it ∈ items, linkPresent db it.link →
      it ∉ (save_new_to_db db items now).2) := by
  refine ⟨save_nodup h, ?_, ?_, ?_⟩
  · intro r1 h1 r2 h2 hl
    exact List.inj_on_of_nodup_map (save_nodup h) h1 h2 hl
  · intro r hr
    exact save_records_mono hr
  · intro it _ hp
    exact save_skip hp

theorem c3_witness :
    linksNodup (⟨[], 0⟩ : DB) ∧
      linksNodup (save_new_to_db ⟨[], 0⟩ [itemA, itemA] "2024-03-14T12:00:00").1 :=
  ⟨by decide, (c3_link_unique ⟨[], 0⟩ [itemA, itemA] "2024-03-14T12:00:00" (by decide)).1⟩

/-- C4: a second run of the pipeline over the same feed tree inserts
no new records and renders from exactly the same query result as the
first run. -/
theorem c4_idempotent (pd : String → Option PyDateTime)
    (unesc : String → String) (db : DB) (root : Element) (today : PyDate)
    (now1 now2 : String) :
    (run_pipeline pd unesc (run_pipeline pd unesc db root today now1).1
        root today now2).2.1 = [] ∧
    (run_pipeline pd unesc (run_pipeline pd unesc db root today now1).1
        root today now2).2.2 =
      (run_pipeline pd unesc db root today now1).2.2 := by
  have hall : ∀ it ∈ filter_news (parse_rss pd unesc root) (some today) none,
      linkPresent
        (save_new_to_db db
          (filter_news (parse_rss pd unesc root) (some today) none) now1).1
        it.link :=
    fun _ hit => save_all_present hit
  have hnoop : save_new_to_db
      (save_new_to_db db
        (filter_news (parse_rss pd unesc root) (some today) none) now1).1
      (filter_news (parse_rss pd unesc root) (some today) none) now2 =
      ((save_new_to_db db
        (filter_news (parse_rss pd unesc root) (some today) none) now1).1,
        []) :=
    save_noop hall
  simp only [run_pipeline, hnoop]
  exact ⟨trivial, trivial⟩

/-- C5: `query_db_for_date(D)` returns exactly the projections of
stored records whose `pubdate_iso` is present with first 10 characters
equal to `D`'s `YYYY-MM-DD` form (so NULL-`pubdate_iso` records never
appear, whatever their `saved_at`), and the result is ordered by
`pubdate_iso` descending. -/
theorem c5_query_by_date (db : DB) (d : PyDate)
    (h : (PyDate.isoformat d).data.length = 10) :
    (∀ row, row ∈ query_db_for_date db d ↔
      ∃ rec ∈ db.records, row = toRow rec ∧
        ∃ s, rec.pubdate_iso = some s ∧
          s.data.take 10 = (PyDate.isoformat d).data) ∧
    List.Perm (query_db_for_date db d)
      ((db.records.filter (fun r => likeDate d r.pubdate_iso)).map toRow) ∧
    (query_db_for_date db d).Pairwise rowGE := by
  refine ⟨?_, perm_sortDesc _, pairwise_sortDesc _⟩
  intro row
  rw [query_db_for_date, mem_sortDesc, List.mem_map]
  constructor
  · rintro ⟨rec, hrec, rfl⟩
    rw [List.mem_filter] at hrec
    obtain ⟨hmem, hpred⟩ := hrec
    cases hiso : rec.pubdate_iso with
    | none => rw [hiso] at hpred; simp [likeDate] at hpred
    | some s =>
      rw [hiso] at hpred
      simp only [likeDate] at hpred
      refine ⟨rec, hmem, rfl, s, hiso, ?_⟩
      have := (isPrefixOf_iff_take (PyDate.isoformat d).data s.data).mp hpred
      rwa [h] at this
  · rintro ⟨rec, hmem, rfl, s, hs, htake⟩
    refine ⟨rec, List.mem_filter.mpr ⟨hmem, ?_⟩, rfl⟩
    rw [hs]
    simp only [likeDate]
    rw [isPrefixOf_iff_take, h]
    exact htake

/-- A stored record dated 2024-03-14, for the C5 witness. -/
def recB : StoredNewsRecord :=
  ⟨1, "http://example.org/b", "B", "News",
    some "2024-03-14T10:05:00+02:00", "Thu, 14 Mar 2024 10:05:00 +0200",
    "2024-03-14T12:00:00"⟩

theorem c5_witness :
    (PyDate.isoformat ⟨2024, 3, 14⟩).data.length = 10 ∧
      (query_db_for_date ⟨[recB], 2⟩ ⟨2024, 3, 14⟩).Pairwise rowGE :=
  ⟨by decide, (c5_query_by_date ⟨[recB], 2⟩ ⟨2024, 3, 14⟩ (by decide)).2.2⟩

/-- C6: in every item `parse_rss` yields, `pubdate_iso` and
`pubdate_dt` are both present or both absent — both are derived from
the single parse attempt on the stripped `pubdate` text, and a failed
or skipped attempt leaves both `none`. -/
theorem c6_iso_dt_together (pd : String → Option PyDateTime)
    (unesc : String → String) (root : Element) (it : FeedItem)
    (h : it ∈ parse_rss pd unesc root) :
    it.pubdate_iso = none ↔ it.pubdate_dt = none := by
  rw [parse_rss, List.mem_map] at h
  obtain ⟨e, _, rfl⟩ := h
  simp only [parseItemElem]
  generalize (if stripStr (get_child_text e "pubdate") ≠ ""
    then pd (stripStr (get_child_text e "pubdate")) else none) = parsed
  cases parsed <;> simp

/-- A one-element feed document whose item has no children at all. -/
def rootBare : Element := .mk "item" none []

/-- A date parser that rejects every string, for witnesses. -/
def pdNone : String → Option PyDateTime := fun _ => none

/-- The item `parse_rss` produces from `rootBare` under `pdNone`. -/
def itemBare : FeedItem := ⟨"", "", "", "", none, none⟩

theorem c6_witness :
    itemBare ∈ parse_rss pdNone id rootBare ∧
      (itemBare.pubdate_iso = none ↔ itemBare.pubdate_dt = none) := by
  have h1 : itemElements rootBare = [Element.mk "item" none []] := by
    simp [itemElements, rootBare, Element.iter, iterList, List.filter,
      Element.tag, show _tag_endswith "item" "item" = true from rfl]
  have h2 : itemBare ∈ parse_rss pdNone id rootBare := by
    rw [parse_rss, h1]
    exact List.mem_singleton.mpr (by decide)
  exact ⟨h2, c6_iso_dt_together pdNone id rootBare itemBare h2⟩

/-- The display-timestamp rule the amended C7 states: a present,
parseable `pubdateIso` is reformatted; a present but unparseable
`pubdateIso` is shown verbatim (not replaced by `pubdateRaw`); an
absent or empty `pubdateIso` falls back to `pubdateRaw`; when that too
is empty the result is empty. -/
def displayAmendedSpec (iso : Option String) (raw : String) : String :=
  match iso with
  | none => raw
  | some s =>
    if s = "" then raw
    else
      match fromisoformat s with
      | some dt => strftimeShort dt
      | none => s

/-- C7 as stated is false on the code: for a record whose
`pubdate_iso` is present but does not parse back, the rendered
timestamp is that `pubdate_iso` string itself (`pub = iso or raw or
""` was already bound before the failed re-parse), not the
`pubdate_raw` fallback the claim prescribes. -/
theorem c7_counterexample :
    fromisoformat "not-a-date" = none ∧
      display_pub (some "not-a-date") "RAW" = "not-a-date" ∧
      display_pub (some "not-a-date") "RAW" ≠ "RAW" := by
  decide

/-- C7 (amended): the display timestamp equals `displayAmendedSpec`:
present-and-parseable `pubdateIso` renders as `YYYY-MM-DD HH:MM`
(in particular `"2024-03-14T10:05:00+02:00"` renders as
`"2024-03-14 10:05"`); a present but unparseable `pubdateIso` is shown
verbatim; otherwise `pubdateRaw`; otherwise empty. -/
theorem c7_display_timestamp :
    (∀ iso raw, display_pub iso raw = displayAmendedSpec iso raw) ∧
      display_pub (some "2024-03-14T10:05:00+02:00") "" = "2024-03-14 10:05" := by
  constructor
  · intro iso raw
    cases iso with
    | none =>
      by_cases hr : raw = "" <;>
        simp [display_pub, displayAmendedSpec, optStr, hr]
    | some s =>
      by_cases hs : s = ""
      · subst hs
        by_cases hr : raw = "" <;>
          simp [display_pub, displayAmendedSpec, optStr, hr]
      · simp only [display_pub, displayAmendedSpec, optStr, hs]
        cases hfi : fromisoformat s <;> simp [hs, hfi]
  · decide

/-- C8: `render_news_html`'s per-record block embeds `title`, `link`
and `category` only through `html.escape`, and an escaped title can
never contain the literal text `<script>` (escaping leaves no `<`
character at all), so markup in a feed title is rendered as escaped
text, never as live markup. -/
theorem c8_escaping (it : NewsRow) :
    renderBlock it =
      articleBlock (html_escape it.link) (html_escape it.title)
        (html_escape it.category)
        (display_pub it.pubdate_iso it.pubdate_raw) ∧
    ¬ List.IsInfix ("<script>".data) ((html_escape it.title).data) := by
  constructor
  · rfl
  · rintro ⟨u, v, huv⟩
    apply not_lt_mem_escList it.title.data
    have hdata : (html_escape it.title).data = escList it.title.data := rfl
    rw [← hdata, ← huv]
    simp only [List.mem_append]
    exact Or.inl (Or.inr (by decide))

/-- C9 as stated is false on the code: `_tag_endswith` is a bare
suffix test, so an element whose local name is `newsitem` — not
`item` — is still extracted as an item. -/
theorem c9_counterexample :
    Element.mk "newsitem" none [] ∈
        itemElements (Element.mk "rss" none [Element.mk "newsitem" none []]) ∧
      specIsItem (Element.mk "newsitem" none []).tag = false := by
  constructor
  · simp [itemElements, Element.iter, iterList, List.filter, Element.tag,
      show _tag_endswith "rss" "item" = false from rfl,
      show _tag_endswith "newsitem" "item" = true from rfl]
  · decide

/-- C9 (amended): `parse_rss` extracts as items exactly the elements
anywhere in the document tree whose tag name case-insensitively ends
with `"item"` — this includes every namespace-prefixed `item` element
(extracted identically to an unprefixed one), but also any element
whose local name merely ends in `"item"`. -/
theorem c9_item_extraction (pd : String → Option PyDateTime)
    (unesc : String → String) (root e : Element) :
    (e ∈ itemElements root ↔
      Subelem e root ∧ _tag_endswith e.tag "item" = true) ∧
    parse_rss pd unesc root =
      (itemElements root).map (parseItemElem pd unesc) := by
  constructor
  · rw [itemElements, List.mem_filter, mem_iter_iff]
  · rfl

/-- C10: an item element with no child tagged like `link` parses to a
`FeedItem` with `link = ""`; such an item is stored like any other, so
under the link-uniqueness invariant at most one empty-link record can
ever exist, and once one is present every later empty-link item is
skipped as a duplicate and never stored. -/
theorem c10_empty_link (pd : String → Option PyDateTime)
    (unesc : String → String) (e : Element) (db : DB)
    (items : List FeedItem) (now : String)
    (he : ∀ c ∈ e.children, _tag_endswith c.tag "link" = false)
    (h : linksNodup db) :
    (parseItemElem pd unesc e).link = "" ∧
    (∀ r1 ∈ (save_new_to_db db items now).1.records,
      ∀ r2 ∈ (save_new_to_db db items now).1.records,
        r1.link = "" → r2.link = "" → r1 = r2) ∧
    (linkPresent db "" → ∀ it ∈ items, it.link = "" →
      it ∉ (save_new_to_db db items now).2) := by
  refine ⟨?_, ?_, ?_⟩
  · have hf : e.children.find?
        (fun child => _tag_endswith child.tag "link") = none := by
      rw [List.find?_eq_none]
      intro c hc
      rw [he c hc]
      simp
    simp [parseItemElem, get_child_text, hf,
      (by decide : stripStr "" = "")]
  · intro r1 h1 r2 h2 e1 e2
    exact List.inj_on_of_nodup_map (save_nodup h) h1 h2 (by rw [e1, e2])
  · intro hp it _ hl
    exact save_skip (by rw [hl]; exact hp)

theorem c10_witness :
    (∀ c ∈ (Element.mk "item" none []).children,
        _tag_endswith c.tag "link" = false) ∧
      linksNodup (⟨[], 0⟩ : DB) ∧
      (parseItemElem pdNone id (Element.mk "item" none [])).link = "" := by
  refine ⟨?_, by decide, ?_⟩
  · intro c hc
    simp [Element.children] at hc
  · exact (c10_empty_link pdNone id (Element.mk "item" none []) ⟨[], 0⟩
      [itemA] "2024-03-14T12:00:00"
      (by intro c hc; simp [Element.children] at hc) (by decide)).1
